import Mathlib

/-!
Shallow embedding of the OWID-categories repository (MrIbrahem/OWID-categories).

Strings are modelled as `List Char`; Python's Unicode-aware character
classes (`\d`, `\w`, `\s`, `str.lower`, `str.strip`) are modelled over ASCII,
which covers every character that occurs in the repository's data
(Wikimedia Commons file titles and category names).  Python's `re.search`
with the two end-anchored patterns of `src/fetch_commons_files.py` is
modelled by deterministic right-to-left parsers; because both patterns are
anchored by `$` and each quantified piece is bounded by characters excluded
from its class, each pattern has at most one match in a string, so the
deterministic parse agrees with Python's leftmost-greedy search (titles are
wiki file titles and hence contain no trailing newline, so the `$`-matches-
before-final-newline corner of Python regexes does not arise).
-/

/-- ASCII uppercase letter (models the regex class [A-Z]). -/
def is_ascii_upper (c : Char) : Bool := 65 ≤ c.toNat && c.toNat ≤ 90

/-- ASCII lowercase letter (models the regex class [a-z]). -/
def is_ascii_lower (c : Char) : Bool := 97 ≤ c.toNat && c.toNat ≤ 122

/-- ASCII letter (models the regex class [A-Za-z]). -/
def is_ascii_alpha (c : Char) : Bool := is_ascii_upper c || is_ascii_lower c

/-- ASCII digit (models the regex class \d over the ASCII range). -/
def is_ascii_digit (c : Char) : Bool := 48 ≤ c.toNat && c.toNat ≤ 57

/-- Word character (models the regex class \w over the ASCII range). -/
def is_word_char (c : Char) : Bool := is_ascii_alpha c || is_ascii_digit c || c == '_'

/-- Python whitespace (models \s and the default str.strip set over ASCII:
space, tab, newline, carriage return, vertical tab, form feed). -/
def is_py_space (c : Char) : Bool :=
  c == ' ' || c == '\t' || c == '\n' || c == '\r' || c == Char.ofNat 11 || c == Char.ofNat 12

/-- Character class of the region group of MAP_PATTERN, [A-Za-z \(\)-]. -/
def is_map_region_char (c : Char) : Bool :=
  is_ascii_alpha c || c == ' ' || c == '(' || c == ')' || c == '-'

/-- Python str.lower restricted to ASCII. -/
def to_lower_ascii (c : Char) : Char :=
  if is_ascii_upper c then Char.ofNat (c.toNat + 32) else c

/-- Python str.lower on a whole string (ASCII model). -/
def py_lower (s : List Char) : List Char := s.map to_lower_ascii

/-- Python str.strip() with no argument: drop leading and trailing whitespace. -/
def py_strip (s : List Char) : List Char :=
  ((s.dropWhile is_py_space).reverse.dropWhile is_py_space).reverse

/-- Python str.rstrip() with no argument: drop trailing whitespace. -/
def py_rstrip (s : List Char) : List Char :=
  (s.reverse.dropWhile is_py_space).reverse

/-- Python int() applied to a non-empty string of ASCII digits. -/
def py_int (ds : List Char) : Nat :=
  ds.foldl (fun acc c => 10 * acc + (c.toNat - 48)) 0

/-- normalize_title from src/fetch_commons_files.py: remove a leading
"File:" prefix, otherwise return the title unchanged. -/
def normalize_title (title : List Char) : List Char :=
  if ("File:".data).isPrefixOf title then title.drop 5 else title

/-- The indicator computation shared by both branches of
classify_and_parse_file: `base_name[:first_comma].strip()` when the
normalized name contains a comma, else the whole normalized name. -/
def indicator_of (title : List Char) : List Char :=
  let base := normalize_title title
  if ',' ∈ base then py_strip (base.takeWhile (fun c => c != ',')) else base

/-- Deterministic right-to-left parse of GRAPH_PATTERN
`,\s*(\d+)\s+to\s+(\d+),\s*(\w+)\.svg$` applied to the reversed title.
Returns the three captured groups (start_year digits, end_year digits,
trailing word) in source order.  Every quantified piece of the pattern is
bounded by characters outside its class, so the groups of any match are
forced and the match (if any) is unique; see the module docstring. -/
def parse_graph_rev (r : List Char) : Option (List Char × List Char × List Char) :=
  match r with
  | 'g' :: 'v' :: 's' :: '.' :: r1 =>
    let wRev := r1.takeWhile is_word_char
    let r2 := r1.dropWhile is_word_char
    if wRev.isEmpty then none else
    match r2.dropWhile is_py_space with
    | ',' :: r4 =>
      let d2Rev := r4.takeWhile is_ascii_digit
      let r5 := r4.dropWhile is_ascii_digit
      if d2Rev.isEmpty then none else
      let s2 := r5.takeWhile is_py_space
      let r6 := r5.dropWhile is_py_space
      if s2.isEmpty then none else
      match r6 with
      | 'o' :: 't' :: r7 =>
        let s1 := r7.takeWhile is_py_space
        let r8 := r7.dropWhile is_py_space
        if s1.isEmpty then none else
        let d1Rev := r8.takeWhile is_ascii_digit
        let r9 := r8.dropWhile is_ascii_digit
        if d1Rev.isEmpty then none else
        match r9.dropWhile is_py_space with
        | ',' :: _ => some (d1Rev.reverse, d2Rev.reverse, wRev.reverse)
        | _ => none
      | _ => none
    | _ => none
  | _ => none

/-- GRAPH_PATTERN.search(title) of src/fetch_commons_files.py. -/
def graph_pattern_search (title : List Char) :
    Option (List Char × List Char × List Char) :=
  parse_graph_rev title.reverse

/-- Deterministic right-to-left parse of MAP_PATTERN
`,\s*([A-Z][A-Za-z \(\)-]+),\s*(\d+)\.svg$` applied to the reversed title.
Returns (region group as captured, year digits).  The region group is the
maximal run of class characters ending at the final comma, minus the
leading spaces consumed by the `\s*` after the starting comma; it must
begin with an uppercase letter and have length at least two. -/
def parse_map_rev (r : List Char) : Option (List Char × List Char) :=
  match r with
  | 'g' :: 'v' :: 's' :: '.' :: r1 =>
    let dRev := r1.takeWhile is_ascii_digit
    let r2 := r1.dropWhile is_ascii_digit
    if dRev.isEmpty then none else
    match r2.dropWhile is_py_space with
    | ',' :: r4 =>
      let clsRev := r4.takeWhile is_map_region_char
      let r5 := r4.dropWhile is_map_region_char
      match (clsRev.reverse).dropWhile (fun c => c == ' ') with
      | c1 :: c2 :: rest =>
        if is_ascii_upper c1 then
          match r5.dropWhile is_py_space with
          | ',' :: _ => some (c1 :: c2 :: rest, dRev.reverse)
          | _ => none
        else none
      | _ => none
    | _ => none
  | _ => none

/-- MAP_PATTERN.search(title) of src/fetch_commons_files.py. -/
def map_pattern_search (title : List Char) : Option (List Char × List Char) :=
  parse_map_rev title.reverse

/-- Tagged classification result: the (file_type, parsed_data) pairs
returned by classify_and_parse_file, plus the ContinentMap variant that the
spec's classifier emits. -/
inductive Classified where
  | graph (iso3 indicator : List Char) (start_year end_year : Nat)
  | map (iso3 : Option (List Char)) (region indicator : List Char) (year : Nat)
  | continentMap (continent indicator : List Char) (year : Nat)
  | unmatched
deriving DecidableEq, Repr

/-- classify_and_parse_file from src/fetch_commons_files.py.  `lookup`
stands for the external get_iso3_from_country table (module
owid_country_codes, an external collaborator). -/
def classify_and_parse_file (lookup : List Char → Option (List Char))
    (title : List Char) : Classified :=
  match graph_pattern_search title with
  | some (start_year, end_year, iso3) =>
    .graph iso3 (indicator_of title) (py_int start_year) (py_int end_year)
  | none =>
    match map_pattern_search title with
    | some (g1, year) =>
      let region := py_strip g1
      .map (lookup region) region (indicator_of title) (py_int year)
    | none => .unmatched

/-- A concrete empty country lookup table, used to instantiate theorems at
closed inputs. -/
def no_lookup : List Char → Option (List Char) := fun _ => none

/-- build_file_page_url from src/fetch_commons_files.py: the Commons page
URL of a file (spaces replaced by underscores). -/
def build_file_page_url (title : List Char) : List Char :=
  "https://commons.wikimedia.org/wiki/".data ++
    title.map (fun c => if c = ' ' then '_' else c)

/-- One "graphs" entry of a country record (src/fetch_commons_files.py,
process_files, graph branch). -/
structure GraphEntry where
  title : List Char
  indicator : List Char
  start_year : Nat
  end_year : Nat
  file_page : List Char
deriving DecidableEq, Repr

/-- One "maps" entry of a country record (src/fetch_commons_files.py,
process_files, map branch). -/
structure MapEntry where
  title : List Char
  indicator : List Char
  year : Nat
  region : List Char
  file_page : List Char
deriving DecidableEq, Repr

/-- One country record of the aggregation (src/fetch_commons_files.py,
process_files).  `country` is the display name from the external reverse
lookup; `unknowns` is the reserved list that stays empty. -/
structure CountryRec where
  iso3 : List Char
  country : Option (List Char)
  graphs : List GraphEntry
  maps : List MapEntry
  unknowns : List (List Char)
deriving DecidableEq, Repr

/-- Association-list model of a Python dict keyed by strings: first
binding of the key wins (keys are kept unique by construction). -/
def alist_get {β : Type} (k : List Char) : List (List Char × β) → Option β
  | [] => none
  | (k', v) :: rest => if k' = k then some v else alist_get k rest

/-- In-place update of the binding of `k` (Python `d[k] = f(d[k])` on an
existing key). -/
def alist_update {β : Type} (k : List Char) (f : β → β) :
    List (List Char × β) → List (List Char × β)
  | [] => []
  | (k', v) :: rest =>
    if k' = k then (k', f v) :: rest else (k', v) :: alist_update k f rest

/-- The keys of an association list, in insertion order. -/
def alist_keys {β : Type} (l : List (List Char × β)) : List (List Char) :=
  l.map Prod.fst

/-- The Python dict idiom `if k not in d: d[k] = mk` followed by a mutation
of `d[k]`: insert the default binding at the end when the key is new, then
update the binding in place. -/
def dict_append {β : Type} (k : List Char) (mk : β) (f : β → β)
    (l : List (List Char × β)) : List (List Char × β) :=
  let l1 := if (alist_get k l).isSome then l else l ++ [(k, mk)]
  alist_update k f l1

/-- State threaded through the process_files loop of
src/fetch_commons_files.py: the `countries` dict and the `not_matched`
list. -/
structure ProcState where
  countries : List (List Char × CountryRec)
  not_matched : List (List Char)
deriving DecidableEq, Repr

/-- One iteration of the process_files loop of src/fetch_commons_files.py.
`lookup` is the external get_iso3_from_country table and `i2c` the external
get_country_from_iso3 table.  A title whose classification fails, or whose
iso3 is falsy (absent or empty), goes to not_matched; otherwise the country
entry is created on first use (with empty lists) and the new entry is
appended. -/
def process_step (lookup i2c : List Char → Option (List Char))
    (st : ProcState) (title : List Char) : ProcState :=
  match classify_and_parse_file lookup title with
  | .unmatched => { st with not_matched := st.not_matched ++ [title] }
  | .continentMap _ _ _ => st
  | .graph iso3 ind sy ey =>
    if iso3 = [] then { st with not_matched := st.not_matched ++ [title] }
    else
      let entry : GraphEntry := ⟨title, ind, sy, ey, build_file_page_url title⟩
      let init : CountryRec :=
        { iso3 := iso3, country := i2c iso3, graphs := [], maps := [], unknowns := [] }
      let countries1 := dict_append iso3 init
        (fun r => { r with graphs := r.graphs ++ [entry] }) st.countries
      { st with countries := countries1 }
  | .map oiso3 region ind year =>
    match oiso3 with
    | none => { st with not_matched := st.not_matched ++ [title] }
    | some iso3 =>
      if iso3 = [] then { st with not_matched := st.not_matched ++ [title] }
      else
        let entry : MapEntry := ⟨title, ind, year, region, build_file_page_url title⟩
        let init : CountryRec :=
          { iso3 := iso3, country := i2c iso3, graphs := [], maps := [], unknowns := [] }
        let countries1 := dict_append iso3 init
          (fun r => { r with maps := r.maps ++ [entry] }) st.countries
        { st with countries := countries1 }

/-- process_files from src/fetch_commons_files.py: fold of process_step
over the title list, starting from empty state. -/
def process_files (lookup i2c : List Char → Option (List Char))
    (titles : List (List Char)) : ProcState :=
  titles.foldl (process_step lookup i2c) ⟨[], []⟩

/-- The titles that process_files routes to not_matched: classification
failed, or the iso3 of the parsed record is falsy (absent or the empty
string). -/
def unresolved_or_unmatched (lookup : List Char → Option (List Char))
    (title : List Char) : Bool :=
  match classify_and_parse_file lookup title with
  | .unmatched => true
  | .graph iso3 _ _ _ => iso3.isEmpty
  | .map none _ _ _ => true
  | .map (some iso3) _ _ _ => iso3.isEmpty
  | .continentMap _ _ _ => false

/-- Modelled from the spec: the fixed continent-name set of §4.1 used by
the continent-aware classifier.  The continent-aware revision of
fetch_commons_files.py (the `fetch_files` function imported by
tests/test_fetch_commons.py, which returns countries, continents and
unmatched) is not under src/; only its tests and its consumer
run_continents.py are. -/
def continent_names : List (List Char) :=
  ["Africa".data, "Antarctica".data, "Asia".data, "Europe".data,
   "North America".data, "South America".data, "Oceania".data,
   "Americas".data, "World".data]

/-- Modelled from the spec: the classifier of §4.1 including step 2's
continent branch — a single-locator title whose (stripped) region is in
the fixed continent-name set yields ContinentMap instead of Map.  All
other behavior follows classify_and_parse_file. -/
def classify_spec (lookup : List Char → Option (List Char))
    (title : List Char) : Classified :=
  match graph_pattern_search title with
  | some (start_year, end_year, iso3) =>
    .graph iso3 (indicator_of title) (py_int start_year) (py_int end_year)
  | none =>
    match map_pattern_search title with
    | some (g1, year) =>
      let region := py_strip g1
      if region ∈ continent_names then
        .continentMap region (indicator_of title) (py_int year)
      else
        .map (lookup region) region (indicator_of title) (py_int year)
    | none => .unmatched

/-- One "maps" entry of a continent record (spec §3, ContinentMap-shaped
entry). -/
structure ContEntry where
  title : List Char
  indicator : List Char
  year : Nat
  file_page : List Char
deriving DecidableEq, Repr

/-- One continent record (spec §3, ContinentRecord). -/
structure ContinentRec where
  continent : List Char
  maps : List ContEntry
deriving DecidableEq, Repr

/-- State of the continent-aware aggregation: countries, continents and
the unmatched list (the triple returned by the fetch_files revision). -/
structure FetchState where
  countries : List (List Char × CountryRec)
  continents : List (List Char × ContinentRec)
  not_matched : List (List Char)
deriving DecidableEq, Repr

/-- Modelled from the spec: one step of the aggregator of §4.3 for the
continent-aware fetch_files revision that is not under src/.  Graph and
resolved-Map records append to the country's lists (created lazily),
ContinentMap records append to the continent's maps list (created lazily),
unresolved Map and Unmatched records append the verbatim title to the
unmatched list. -/
def fetch_step (lookup i2c : List Char → Option (List Char))
    (st : FetchState) (title : List Char) : FetchState :=
  match classify_spec lookup title with
  | .unmatched => { st with not_matched := st.not_matched ++ [title] }
  | .continentMap cont ind year =>
    let entry : ContEntry := ⟨title, ind, year, build_file_page_url title⟩
    let init : ContinentRec := { continent := cont, maps := [] }
    let continents1 := dict_append cont init
      (fun r => { r with maps := r.maps ++ [entry] }) st.continents
    { st with continents := continents1 }
  | .graph iso3 ind sy ey =>
    let entry : GraphEntry := ⟨title, ind, sy, ey, build_file_page_url title⟩
    let init : CountryRec :=
      { iso3 := iso3, country := i2c iso3, graphs := [], maps := [], unknowns := [] }
    let countries1 := dict_append iso3 init
      (fun r => { r with graphs := r.graphs ++ [entry] }) st.countries
    { st with countries := countries1 }
  | .map oiso3 region ind year =>
    match oiso3 with
    | none => { st with not_matched := st.not_matched ++ [title] }
    | some iso3 =>
      let entry : MapEntry := ⟨title, ind, year, region, build_file_page_url title⟩
      let init : CountryRec :=
        { iso3 := iso3, country := i2c iso3, graphs := [], maps := [], unknowns := [] }
      let countries1 := dict_append iso3 init
        (fun r => { r with maps := r.maps ++ [entry] }) st.countries
      { st with countries := countries1 }

/-- Modelled from the spec: the aggregate contract of §4.3
(`aggregate(titles) -> (countries, continents, unmatched)`), i.e. the
fetch_files revision's aggregation: a left fold of fetch_step from the
empty state. -/
def fetch_files (lookup i2c : List Char → Option (List Char))
    (titles : List (List Char)) : FetchState :=
  titles.foldl (fetch_step lookup i2c) ⟨[], [], []⟩

/-- The country key a title contributes during the continent-aware
aggregation, if any. -/
def country_key_of (lookup : List Char → Option (List Char))
    (title : List Char) : Option (List Char) :=
  match classify_spec lookup title with
  | .graph iso3 _ _ _ => some iso3
  | .map (some iso3) _ _ _ => some iso3
  | _ => none

/-- The continent key a title contributes during the continent-aware
aggregation, if any. -/
def continent_key_of (lookup : List Char → Option (List Char))
    (title : List Char) : Option (List Char) :=
  match classify_spec lookup title with
  | .continentMap cont _ _ => some cont
  | _ => none

/-- The graphs entry that a title contributes to country `k`, if any. -/
def graph_entry_for (lookup : List Char → Option (List Char))
    (k title : List Char) : Option GraphEntry :=
  match classify_spec lookup title with
  | .graph iso3 ind sy ey =>
    if iso3 = k then some ⟨title, ind, sy, ey, build_file_page_url title⟩ else none
  | _ => none

/-- The maps entry that a title contributes to country `k`, if any. -/
def map_entry_for (lookup : List Char → Option (List Char))
    (k title : List Char) : Option MapEntry :=
  match classify_spec lookup title with
  | .map (some iso3) region ind year =>
    if iso3 = k then some ⟨title, ind, year, region, build_file_page_url title⟩ else none
  | _ => none

/-- The maps entry that a title contributes to continent `c`, if any. -/
def cont_entry_for (lookup : List Char → Option (List Char))
    (c title : List Char) : Option ContEntry :=
  match classify_spec lookup title with
  | .continentMap cont ind year =>
    if cont = c then some ⟨title, ind, year, build_file_page_url title⟩ else none
  | _ => none

/-- The graphs list of country `k` in an aggregation state ([] if the
country record does not exist). -/
def graphs_of (k : List Char) (st : FetchState) : List GraphEntry :=
  match alist_get k st.countries with
  | some r => r.graphs
  | none => []

/-- The maps list of country `k` in an aggregation state. -/
def cmaps_of (k : List Char) (st : FetchState) : List MapEntry :=
  match alist_get k st.countries with
  | some r => r.maps
  | none => []

/-- The maps list of continent `c` in an aggregation state. -/
def cont_maps_of (c : List Char) (st : FetchState) : List ContEntry :=
  match alist_get c st.continents with
  | some r => r.maps
  | none => []

/-- Fuel-driven model of Python str.replace(pat, rep): scan left to right,
replacing non-overlapping occurrences of `pat`.  The fuel argument (always
instantiated with the string length, which bounds the number of steps)
keeps the recursion structural so that the definition evaluates inside the
kernel.  The `pat ≠ []` guard is never hit at the call sites of this file
(the only pattern used is "Category:"). -/
def replace_go (pat rep : List Char) : Nat → List Char → List Char
  | _, [] => []
  | 0, l => l
  | Nat.succ fuel, c :: cs =>
    if pat ≠ [] ∧ pat.isPrefixOf (c :: cs) then
      rep ++ replace_go pat rep fuel ((c :: cs).drop pat.length)
    else
      c :: replace_go pat rep fuel cs

/-- Python str.replace(pat, rep): replace every non-overlapping occurrence
of `pat`, scanning left to right. -/
def replace_all (pat rep s : List Char) : List Char :=
  replace_go pat rep s.length s

/-- Python's substring operator `needle in haystack`: some contiguous run
of `haystack` equals `needle`. -/
def is_substring (needle : List Char) : List Char → Bool
  | [] => needle.isEmpty
  | c :: cs => needle.isPrefixOf (c :: cs) || is_substring needle cs

/-- category_exists_on_page from src/categorize/wiki.py: false on empty or
absent page text (both modelled as []); otherwise true iff any of the four
probe strings — the bracketed category, the bracketed fully-lowercased
category, and the bracketed "Category:"/"category:" forms of the category
with every "Category:" occurrence removed — is a substring of the page. -/
def category_exists_on_page (page_text category : List Char) : Bool :=
  if page_text = [] then false
  else
    let category_simple := replace_all ("Category:".data) [] category
    let checks : List (List Char) :=
      ["[[".data ++ category ++ "]]".data,
       "[[".data ++ py_lower category ++ "]]".data,
       "[[Category:".data ++ category_simple ++ "]]".data,
       "[[category:".data ++ category_simple ++ "]]".data]
    checks.any (fun check => is_substring check page_text)

/-- The edit decision of the category-add operation. -/
inductive EditDecision where
  | alreadyPresent
  | pageMissing
  | apply (new_text summary : List Char)
deriving DecidableEq, Repr

/-- The pure decision core of add_category_to_page from
src/categorize/wiki.py (the caller supplies page existence): skip when the
page is missing, skip when category_exists_on_page holds, otherwise append
the bracketed category after stripping trailing whitespace and commit with
summary "Add {category}". -/
def compute_add_edit (page_exists : Bool) (page_text category : List Char) :
    EditDecision :=
  if page_exists = false then .pageMissing
  else if category_exists_on_page page_text category then .alreadyPresent
  else .apply (py_rstrip page_text ++ "\n[[".data ++ category ++ "]]\n".data)
    ("Add ".data ++ category)

/-- ensure_category_exists from src/categorize/wiki.py, as a pure decision:
the Bool result the function returns, together with the (content, summary)
of the category page it would save (none when the category already exists
or in dry-run mode). -/
def ensure_category_exists (category_page_exists : Bool)
    (parent_category sort_key : List Char) (dry_run : Bool) :
    Bool × Option (List Char × List Char) :=
  if category_page_exists then (true, none)
  else if dry_run then (true, none)
  else (true, some ("[[Category:".data ++ parent_category ++ "|".data ++ sort_key ++ "]]".data,
    "Create category for OWID graphs".data))

/-- normalize_country_name from src/categorize/utils.py: prefix "the " when
the country is in the fixed list, else pass through. -/
def normalize_country_name (country : List Char) : List Char :=
  let countries_with_the : List (List Char) :=
    ["Democratic Republic of Congo".data, "Dominican Republic".data,
     "Philippines".data, "Netherlands".data, "United Arab Emirates".data,
     "United Kingdom".data, "United States".data, "Czech Republic".data,
     "Central African Republic".data, "Maldives".data, "Seychelles".data,
     "Bahamas".data, "Marshall Islands".data, "Solomon Islands".data,
     "Comoros".data, "Gambia".data, "Vatican City".data, "Vatican".data]
  if country ∈ countries_with_the then ("the ".data) ++ country else country

/-- build_category_name from src/categorize/utils.py.  The source keeps a
pre_defined_categories dict with keys "graphs" and "maps", each holding the
single whole-name override for entity "World"; an unrecognized files_type
falls back to "graphs"; the override is consulted before the
country-normalization step. -/
def build_category_name (entity_name category_type files_type : List Char) :
    List Char :=
  let ft := if files_type = "graphs".data ∨ files_type = "maps".data
    then files_type else ("graphs".data)
  if entity_name = "World".data then
    (if ft = "maps".data then ("Category:Our World in Data maps of the world".data)
     else ("Category:Our World in Data graphs of the world".data))
  else
    let normalized := if category_type = "country".data
      then normalize_country_name entity_name else entity_name
    ("Category:Our World in Data ".data) ++ ft ++ (" of ".data) ++ normalized

/-- The well-formedness property claimed for iso3 fields: exactly 3
uppercase ASCII letters. -/
def is_iso3_shape (s : List Char) : Bool :=
  s.length == 3 && s.all is_ascii_upper

/-! ### Helper lemmas -/

/-- Unfolding equation for replace_go at positive fuel on a cons cell. -/
theorem replace_go_succ_cons (pat rep : List Char) (n : Nat) (c : Char) (cs : List Char) :
    replace_go pat rep (Nat.succ n) (c :: cs)
      = if pat ≠ [] ∧ pat.isPrefixOf (c :: cs) then
          rep ++ replace_go pat rep n ((c :: cs).drop pat.length)
        else c :: replace_go pat rep n cs := rfl

/-- is_substring decides the infix relation (the model of Python's `in`). -/
theorem is_substring_iff (n h : List Char) : is_substring n h = true ↔ n <:+: h := by
  induction h with
  | nil => simp [is_substring]
  | cons c cs ih =>
    simp [is_substring, ih, List.infix_cons_iff]

/-- replace_go leaves a string without occurrences of the pattern
unchanged, for every fuel value. -/
theorem replace_go_no_occurrence (pat rep : List Char) :
    ∀ (fuel : Nat) (s : List Char), ¬ pat <:+: s → replace_go pat rep fuel s = s := by
  intro fuel
  induction fuel with
  | zero =>
    intro s _
    cases s <;> rfl
  | succ n ih =>
    intro s hs
    cases s with
    | nil => rfl
    | cons c cs =>
      rw [replace_go_succ_cons]
      rw [if_neg]
      · rw [ih cs (fun hc => hs (List.infix_cons_iff.mpr (Or.inr hc)))]
      · rintro ⟨-, hp⟩
        exact hs (List.infix_cons_iff.mpr (Or.inl (by simpa using hp)))

/-- Stripping a single leading occurrence of the pattern: replace with the
empty string on `pat ++ s` gives back `s` when `s` holds no occurrence. -/
theorem replace_all_strip (pat s : List Char) (hne : pat ≠ []) (h : ¬ pat <:+: s) :
    replace_all pat [] (pat ++ s) = s := by
  cases pat with
  | nil => exact absurd rfl hne
  | cons p ps =>
    show replace_go (p :: ps) [] (p :: (ps ++ s)).length (p :: (ps ++ s)) = s
    rw [show (p :: (ps ++ s)).length = Nat.succ (ps ++ s).length from rfl]
    rw [replace_go_succ_cons]
    rw [if_pos ⟨by simp, by simp⟩]
    rw [show ((p :: (ps ++ s)).drop (p :: ps).length) = s by
      simp]
    simpa using replace_go_no_occurrence (p :: ps) [] (ps ++ s).length s h

/-! ### Claim C10 -/

/-- C10: ensure_category_exists returns True on every execution path
(category already exists, dry-run, and after creating the page), so the
documented False-on-error outcome never occurs and the caller's
failure branch in run_continents.process_continent_file is unreachable. -/
theorem claim_C10_ensure_true :
    ∀ (category_page_exists dry_run : Bool) (parent_category sort_key : List Char),
      (ensure_category_exists category_page_exists parent_category sort_key dry_run).1
        = true := by
  intro e d p s
  cases e <;> cases d <;> rfl

/-! ### Claim C9 -/

/-- C9: build_category_name checks the whole-name override table before any
normalization (entity "World" with files_type "graphs" yields the
"of the world" category for every category_type), applies the "the "-prefix
only when the kind is country and the name is in the fixed list
("United Kingdom" vs "Canada"), and treats any unrecognized files_type as
"graphs". -/
theorem claim_C9_build_category :
    (∀ kind : List Char,
      build_category_name ("World".data) kind ("graphs".data)
        = "Category:Our World in Data graphs of the world".data)
    ∧ build_category_name ("United Kingdom".data) ("country".data) ("graphs".data)
        = "Category:Our World in Data graphs of the United Kingdom".data
    ∧ build_category_name ("Canada".data) ("country".data) ("graphs".data)
        = "Category:Our World in Data graphs of Canada".data
    ∧ (∀ entity kind files_type : List Char,
        files_type ≠ "graphs".data → files_type ≠ "maps".data →
        build_category_name entity kind files_type
          = build_category_name entity kind ("graphs".data))
    ∧ (∀ entity kind : List Char, kind ≠ "country".data → entity ≠ "World".data →
        build_category_name entity kind ("graphs".data)
          = "Category:Our World in Data graphs of ".data ++ entity) := by
  refine ⟨fun kind => rfl, by decide, by decide, ?_, ?_⟩
  · intro entity kind files_type h1 h2
    simp [build_category_name, h1, h2]
  · intro entity kind hk he
    simp [build_category_name, he, hk]

/-- Witness for C9: the unrecognized files_type "charts" behaves like
"graphs". -/
theorem claim_C9_witness :
    build_category_name ("Canada".data) ("country".data) ("charts".data)
      = build_category_name ("Canada".data) ("country".data) ("graphs".data) :=
  claim_C9_build_category.2.2.2.1 ("Canada".data) ("country".data) ("charts".data)
    (by decide) (by decide)

/-! ### Claim C6 -/

/-- C6 counterexample: the claim says the check is case-sensitive on the
category name, so the differently-cased name "foo" must not match target
"Category:Foo"; but category_exists_on_page also probes the fully
lowercased category, so the page "[[category:foo]]" does match. -/
theorem claim_C6_counterexample :
    ("foo".data ≠ "Foo".data)
    ∧ category_exists_on_page ("[[category:foo]]".data) ("Category:Foo".data) = true :=
  ⟨by decide, by decide⟩

/-- C6 amended: category_present is false on empty page text; it is
case-insensitive on the "Category:" keyword (for every name without an
embedded "Category:", a page containing "[[category:name]]" matches target
"Category:name"); and it is case-sensitive on the category name itself
except that the fully-lowercased whole link also matches, because the code
additionally probes the lowercased category ("[[Category:foo]]" against
"Category:Foo" does not match, while "[[category:foo]]" does). -/
theorem claim_C6_category_probe :
    (∀ category : List Char, category_exists_on_page [] category = false)
    ∧ (∀ name : List Char, is_substring ("Category:".data) name = false →
        category_exists_on_page ("[[category:".data ++ name ++ "]]".data)
          ("Category:".data ++ name) = true)
    ∧ category_exists_on_page ("[[Category:foo]]".data) ("Category:Foo".data) = false
    ∧ category_exists_on_page ("[[category:foo]]".data) ("Category:Foo".data) = true := by
  refine ⟨fun category => rfl, ?_, by decide, by decide⟩
  intro name h
  have hinf : ¬ ("Category:".data) <:+: name := by
    intro hc
    rw [← is_substring_iff] at hc
    simp [h] at hc
  simp only [category_exists_on_page]
  rw [if_neg (by simp)]
  rw [replace_all_strip ("Category:".data) name (by decide) hinf]
  apply List.any_eq_true.mpr
  refine ⟨"[[category:".data ++ name ++ "]]".data, by simp, ?_⟩
  rw [is_substring_iff]

/-- Witness for C6: instantiating the keyword-insensitivity clause at the
name "Foo". -/
theorem claim_C6_witness :
    category_exists_on_page ("[[category:".data ++ "Foo".data ++ "]]".data)
      ("Category:".data ++ "Foo".data) = true :=
  claim_C6_category_probe.2.1 ("Foo".data) (by decide)

/-! ### Claim C7 -/

/-- C7: the category-add edit is idempotent — whenever compute_add_edit
yields Apply with some new text, running compute_add_edit on that new text
with the same category yields AlreadyPresent, because the presence check
finds the bracketed category that the first edit appended. -/
theorem claim_C7_idempotent :
    ∀ (page_exists : Bool) (page_text category new_text summary : List Char),
      compute_add_edit page_exists page_text category = .apply new_text summary →
      compute_add_edit true new_text category = .alreadyPresent := by
  intro pe text cat nt s h
  cases pe with
  | false => simp [compute_add_edit] at h
  | true =>
    simp only [compute_add_edit, if_neg (by simp : ¬(true = false))] at h ⊢
    by_cases hex : category_exists_on_page text cat = true
    · rw [if_pos hex] at h
      exact absurd h (by simp)
    · rw [if_neg hex] at h
      have hnt : nt = py_rstrip text ++ "\n[[".data ++ cat ++ "]]\n".data :=
        (EditDecision.apply.injEq _ _ _ _).mp h.symm |>.1
    -- the appended link "[[cat]]" is a substring of the new text
      have hpresent : category_exists_on_page nt cat = true := by
        simp only [category_exists_on_page]
        rw [if_neg (by simp [hnt])]
        apply List.any_eq_true.mpr
        refine ⟨"[[".data ++ cat ++ "]]".data, by simp, ?_⟩
        rw [is_substring_iff, hnt]
        refine ⟨py_rstrip text ++ ['\n'], ['\n'], ?_⟩
        simp [show ("\n[[".data : List Char) = '\n' :: '[' :: '[' :: [] from rfl,
          show ("]]\n".data : List Char) = ']' :: ']' :: '\n' :: [] from rfl]
      rw [if_pos hpresent]

/-- Witness for C7: a concrete first edit followed by the idempotence
consequence. -/
theorem claim_C7_witness :
    compute_add_edit true
      (py_rstrip ("Some text".data) ++ "\n[[".data ++ "Category:Foo".data ++ "]]\n".data)
      ("Category:Foo".data) = .alreadyPresent :=
  claim_C7_idempotent true ("Some text".data) ("Category:Foo".data)
    (py_rstrip ("Some text".data) ++ "\n[[".data ++ "Category:Foo".data ++ "]]\n".data)
    ("Add ".data ++ "Category:Foo".data) (by decide)

/-! ### Claim C8 -/

/-- C8: when an edit is applied, the new page text is exactly the old text
with trailing whitespace stripped, a newline, the bracketed category link,
and a final newline, and the commit summary is "Add {category}". -/
theorem claim_C8_apply_text :
    ∀ (page_text category : List Char),
      category_exists_on_page page_text category = false →
      compute_add_edit true page_text category
        = .apply
            (py_rstrip page_text ++ "\n".data ++ "[[".data ++ category
              ++ "]]".data ++ "\n".data)
            ("Add ".data ++ category) := by
  intro text cat h
  simp only [compute_add_edit, if_neg (by simp : ¬(true = false))]
  rw [if_neg (by simp [h])]
  simp [show ("\n[[".data : List Char) = '\n' :: '[' :: '[' :: [] from rfl,
    show ("]]\n".data : List Char) = ']' :: ']' :: '\n' :: [] from rfl,
    show ("\n".data : List Char) = ['\n'] from rfl,
    show ("[[".data : List Char) = ['[', '['] from rfl,
    show ("]]".data : List Char) = [']', ']'] from rfl]

/-- Witness for C8: the concrete edit on a page not yet carrying the
category. -/
theorem claim_C8_witness :
    compute_add_edit true ("Some text".data) ("Category:Foo".data)
      = .apply
          (py_rstrip ("Some text".data) ++ "\n".data ++ "[[".data
            ++ "Category:Foo".data ++ "]]".data ++ "\n".data)
          ("Add ".data ++ "Category:Foo".data) :=
  claim_C8_apply_text ("Some text".data) ("Category:Foo".data) (by decide)

/-! ### Parser extraction lemmas -/

/-- A successful GRAPH_PATTERN match yields a comma in the title and a
non-empty trailing group of word characters. -/
theorem graph_pattern_groups (title a b w : List Char)
    (h : graph_pattern_search title = some (a, b, w)) :
    (',' ∈ title) ∧ w ≠ [] ∧ (∀ c ∈ w, is_word_char c = true) := by
  unfold graph_pattern_search parse_graph_rev at h
  split at h
  case h_2 => exact absurd h (by simp)
  next r1 heq1 =>
  simp only at h
  split at h
  · exact absurd h (by simp)
  next hw =>
  split at h
  case h_2 => exact absurd h (by simp)
  next r4 heq2 =>
  have hcomma : (',' : Char) ∈ title := by
    have h1 : (',' : Char) ∈ (r1.dropWhile is_word_char).dropWhile is_py_space := by
      rw [heq2]; exact List.mem_cons_self _ _
    have h2 : (',' : Char) ∈ r1 :=
      (List.dropWhile_sublist _).mem ((List.dropWhile_sublist _).mem h1)
    have h3 : (',' : Char) ∈ title.reverse := by
      rw [heq1]; simp [h2]
    simpa using h3
  refine ⟨hcomma, ?_⟩
  split at h
  · exact absurd h (by simp)
  split at h
  · exact absurd h (by simp)
  split at h
  case h_2 => exact absurd h (by simp)
  next r7 heq3 =>
  split at h
  · exact absurd h (by simp)
  split at h
  · exact absurd h (by simp)
  split at h
  case h_2 => exact absurd h (by simp)
  next rest heq4 =>
  simp only [Option.some.injEq, Prod.mk.injEq] at h
  obtain ⟨-, -, hww⟩ := h
  constructor
  · rw [← hww]
    intro hnil
    exact hw (List.isEmpty_iff.mpr (List.reverse_eq_nil_iff.mp hnil))
  · intro c hc
    rw [← hww] at hc
    exact List.mem_takeWhile_imp (List.mem_reverse.mp hc)

/-- A comma of the title survives normalize_title ("File:" holds no
comma). -/
theorem comma_mem_normalize (title : List Char) (h : (',' : Char) ∈ title) :
    (',' : Char) ∈ normalize_title title := by
  unfold normalize_title
  split
  · rename_i hp
    obtain ⟨t, ht⟩ := List.isPrefixOf_iff_prefix.mp hp
    rw [← ht] at h ⊢
    rw [show ("File:".data ++ t).drop 5 = t from
      List.drop_left' (by decide : ("File:".data).length = 5)]
    rcases List.mem_append.mp h with h' | h'
    · exact absurd h' (by decide)
    · exact h'
  · exact h

/-! ### Claim C1 -/

/-- C1 counterexample: for the range-grammar title
"Foo , 1990 to 2000, CAN.svg" the claim predicts the indicator "Foo "
(everything before the first comma of the title), but
classify_and_parse_file strips surrounding whitespace from that segment
and returns "Foo". -/
theorem claim_C1_counterexample :
    graph_pattern_search ("Foo , 1990 to 2000, CAN.svg".data)
      = some ("1990".data, "2000".data, "CAN".data)
    ∧ classify_and_parse_file no_lookup ("Foo , 1990 to 2000, CAN.svg".data)
        = .graph ("CAN".data) ("Foo".data) 1990 2000
    ∧ classify_and_parse_file no_lookup ("Foo , 1990 to 2000, CAN.svg".data)
        ≠ .graph ("CAN".data) ("Foo ".data) 1990 2000 :=
  ⟨by decide, by decide, by decide⟩

/-- C1 amended: for every title matching the range grammar, classify
returns Graph whose start_year and end_year are the two captured digit
groups parsed as integers, whose iso3 is the captured trailing word
verbatim, and whose indicator is everything before the first comma of the
title after stripping a leading "File:" prefix, additionally stripped of
surrounding whitespace (Python str.strip is applied to the pre-comma
segment; a range-grammar title always contains a comma). -/
theorem claim_C1_graph_parse :
    ∀ (lookup : List Char → Option (List Char)) (title start_digits end_digits w : List Char),
      graph_pattern_search title = some (start_digits, end_digits, w) →
      classify_and_parse_file lookup title
        = .graph w (py_strip ((normalize_title title).takeWhile (fun c => c != ',')))
            (py_int start_digits) (py_int end_digits) := by
  intro lookup title sy ey w h
  have hc := (graph_pattern_groups title sy ey w h).1
  have hcn := comma_mem_normalize title hc
  simp only [classify_and_parse_file, h]
  simp only [indicator_of]
  rw [if_pos hcn]

/-- Witness for C1: the amended theorem applied to a concrete range-grammar
title. -/
theorem claim_C1_witness :
    classify_and_parse_file no_lookup ("File:Agriculture share gdp, 1997 to 2021, CAN.svg".data)
      = .graph ("CAN".data)
          (py_strip ((normalize_title ("File:Agriculture share gdp, 1997 to 2021, CAN.svg".data)).takeWhile
            (fun c => c != ',')))
          (py_int ("1997".data)) (py_int ("2021".data)) :=
  claim_C1_graph_parse no_lookup ("File:Agriculture share gdp, 1997 to 2021, CAN.svg".data)
    ("1997".data) ("2021".data) ("CAN".data) (by decide)

/-! ### Claim C2 -/

/-- C2: for every title matching the single-locator grammar whose stripped
region is in the fixed continent-name set, the spec's classifier returns
ContinentMap carrying that continent name, the indicator, and the parsed
year — not a Map record.  (Settled against classify_spec, the spec-modelled
continent-aware classifier; the classifier revision with this branch is not
under src/.) -/
theorem claim_C2_continent_map :
    ∀ (lookup : List Char → Option (List Char)) (title g1 year_digits : List Char),
      graph_pattern_search title = none →
      map_pattern_search title = some (g1, year_digits) →
      py_strip g1 ∈ continent_names →
      classify_spec lookup title
        = .continentMap (py_strip g1) (indicator_of title) (py_int year_digits) := by
  intro lookup title g1 y hg hm hmem
  simp only [classify_spec, hg, hm]
  rw [if_pos hmem]

/-- Witness for C2: the spec's own example title. -/
theorem claim_C2_witness :
    classify_spec no_lookup ("Some indicator, Africa, 2015.svg".data)
      = .continentMap (py_strip ("Africa".data))
          (indicator_of ("Some indicator, Africa, 2015.svg".data))
          (py_int ("2015".data)) :=
  claim_C2_continent_map no_lookup ("Some indicator, Africa, 2015.svg".data)
    ("Africa".data) ("2015".data) (by decide) (by decide) (by decide)

/-! ### Claim C4 -/

/-- C4 counterexample: the title "Foo, 1990 to 2000, can.svg" matches the
range grammar with trailing word "can", and classify passes it through as
the iso3 of a Graph record even though it is not 3 uppercase letters. -/
theorem claim_C4_counterexample :
    classify_and_parse_file no_lookup ("Foo, 1990 to 2000, can.svg".data)
      = .graph ("can".data) ("Foo".data) 1990 2000
    ∧ is_iso3_shape ("can".data) = false :=
  ⟨by decide, by decide⟩

/-- C4 amended: in every Graph record produced by classify, the iso3 field
is a non-empty run of word characters (letters, digits, underscore) — the
trailing capture of the range pattern — but it is not validated to be
exactly 3 uppercase letters.  (For Map records the iso3 comes verbatim from
the external country lookup and carries no constraint in this code.) -/
theorem claim_C4_iso3_word :
    ∀ (lookup : List Char → Option (List Char)) (title w ind : List Char) (sy ey : Nat),
      classify_and_parse_file lookup title = .graph w ind sy ey →
      w ≠ [] ∧ (∀ c ∈ w, is_word_char c = true) := by
  intro lookup title w ind sy ey h
  unfold classify_and_parse_file at h
  split at h
  · next a b c heq =>
    simp only [Classified.graph.injEq] at h
    obtain ⟨hw, -, -, -⟩ := h
    subst hw
    exact ⟨(graph_pattern_groups title a b c heq).2.1,
      (graph_pattern_groups title a b c heq).2.2⟩
  · next heq =>
    split at h <;> exact absurd h (by simp)

/-- Witness for C4: the amended theorem applied to the lowercase-code
title. -/
theorem claim_C4_witness :
    ("can".data : List Char) ≠ []
    ∧ (∀ c ∈ ("can".data : List Char), is_word_char c = true) :=
  claim_C4_iso3_word no_lookup ("Foo, 1990 to 2000, can.svg".data)
    ("can".data) ("Foo".data) 1990 2000 (by decide)

theorem procstate_eta (st : ProcState) : st = ⟨st.countries, st.not_matched⟩ := rfl

theorem process_step_not_matched (lookup i2c : List Char → Option (List Char))
    (st : ProcState) (t : List Char) :
    (process_step lookup i2c st t).not_matched
      = st.not_matched ++ (if unresolved_or_unmatched lookup t then [t] else []) := by
  cases hcl : classify_and_parse_file lookup t with
  | unmatched => simp [process_step, unresolved_or_unmatched, hcl]
  | continentMap c i y => simp [process_step, unresolved_or_unmatched, hcl]
  | graph w i sy ey =>
    by_cases hw : w = [] <;>
      simp [process_step, unresolved_or_unmatched, hcl, hw, List.isEmpty_iff]
  | map o r i y =>
    cases o with
    | none => simp [process_step, unresolved_or_unmatched, hcl]
    | some s =>
      by_cases hs : s = [] <;>
        simp [process_step, unresolved_or_unmatched, hcl, hs, List.isEmpty_iff]

theorem process_step_countries_nm (lookup i2c : List Char → Option (List Char))
    (c : List (List Char × CountryRec)) (nm nm' : List (List Char)) (t : List Char) :
    (process_step lookup i2c ⟨c, nm⟩ t).countries
      = (process_step lookup i2c ⟨c, nm'⟩ t).countries := by
  cases hcl : classify_and_parse_file lookup t with
  | unmatched => simp [process_step, hcl]
  | continentMap cc i y => simp [process_step, hcl]
  | graph w i sy ey => by_cases hw : w = [] <;> simp [process_step, hcl, hw]
  | map o r i y =>
    cases o with
    | none => simp [process_step, hcl]
    | some s => by_cases hs : s = [] <;> simp [process_step, hcl, hs]

theorem process_step_countries_bad (lookup i2c : List Char → Option (List Char))
    (st : ProcState) (t : List Char) (h : unresolved_or_unmatched lookup t = true) :
    (process_step lookup i2c st t).countries = st.countries := by
  cases hcl : classify_and_parse_file lookup t with
  | unmatched => simp [process_step, hcl]
  | continentMap c i y => simp [process_step, hcl]
  | graph w i sy ey =>
    have hw : w = [] := by
      simpa [unresolved_or_unmatched, hcl, List.isEmpty_iff] using h
    simp [process_step, hcl, hw]
  | map o r i y =>
    cases o with
    | none => simp [process_step, hcl]
    | some s =>
      have hs : s = [] := by
        simpa [unresolved_or_unmatched, hcl, List.isEmpty_iff] using h
      simp [process_step, hcl, hs]

theorem process_fold_not_matched (lookup i2c : List Char → Option (List Char)) :
    ∀ (ts : List (List Char)) (st : ProcState),
      (ts.foldl (process_step lookup i2c) st).not_matched
        = st.not_matched ++ ts.filter (unresolved_or_unmatched lookup) := by
  intro ts
  induction ts with
  | nil => intro st; simp
  | cons t ts ih =>
    intro st
    rw [List.foldl_cons, ih, process_step_not_matched, List.filter_cons]
    by_cases hb : unresolved_or_unmatched lookup t = true <;>
      simp [hb, List.append_assoc]

theorem process_fold_countries_nm (lookup i2c : List Char → Option (List Char)) :
    ∀ (ts : List (List Char)) (c : List (List Char × CountryRec))
      (nm nm' : List (List Char)),
      ((ts.foldl (process_step lookup i2c) ⟨c, nm⟩).countries)
        = ((ts.foldl (process_step lookup i2c) ⟨c, nm'⟩).countries) := by
  intro ts
  induction ts with
  | nil => intro c nm nm'; rfl
  | cons t ts ih =>
    intro c nm nm'
    rw [List.foldl_cons, List.foldl_cons]
    rw [procstate_eta (process_step lookup i2c ⟨c, nm⟩ t),
      procstate_eta (process_step lookup i2c ⟨c, nm'⟩ t)]
    rw [process_step_countries_nm lookup i2c c nm nm' t]
    exact ih _ _ _

theorem process_fold_countries_filter (lookup i2c : List Char → Option (List Char)) :
    ∀ (ts : List (List Char)) (c : List (List Char × CountryRec))
      (nm : List (List Char)),
      ((ts.foldl (process_step lookup i2c) ⟨c, nm⟩).countries)
        = (((ts.filter (fun t => !(unresolved_or_unmatched lookup t))).foldl
            (process_step lookup i2c) ⟨c, nm⟩).countries) := by
  intro ts
  induction ts with
  | nil => intro c nm; rfl
  | cons t ts ih =>
    intro c nm
    rw [List.filter_cons]
    by_cases hb : unresolved_or_unmatched lookup t = true
    · rw [List.foldl_cons]
      rw [procstate_eta (process_step lookup i2c ⟨c, nm⟩ t)]
      rw [process_step_countries_bad lookup i2c ⟨c, nm⟩ t hb]
      rw [show (!(unresolved_or_unmatched lookup t)) = false by simp [hb]]
      simp only [Bool.false_eq_true, if_false]
      rw [process_fold_countries_nm lookup i2c ts c _ nm]
      exact ih c nm
    · have hb' : unresolved_or_unmatched lookup t = false := by simpa using hb
      rw [show (!(unresolved_or_unmatched lookup t)) = true by simp [hb']]
      simp only [if_true]
      rw [List.foldl_cons, List.foldl_cons]
      rw [procstate_eta (process_step lookup i2c ⟨c, nm⟩ t)]
      exact ih _ _

/-! ### Claim C3 -/

/-- C3: during aggregation, every title routed to not_matched — a title
classified Unmatched, or one whose parsed iso3 is falsy (a Map whose region
lookup failed, or an empty-string code) — is appended to the unmatched
output verbatim and in input order, and the countries output is exactly the
one obtained with those titles removed, so no country record is created or
modified for them (the src aggregator creates no continent records for any
title). -/
theorem claim_C3_unmatched_handling :
    ∀ (lookup i2c : List Char → Option (List Char)) (titles : List (List Char)),
      (process_files lookup i2c titles).not_matched
        = titles.filter (unresolved_or_unmatched lookup)
      ∧ (process_files lookup i2c titles).countries
          = (process_files lookup i2c
              (titles.filter (fun t => !(unresolved_or_unmatched lookup t)))).countries := by
  intro lookup i2c ts
  constructor
  · simpa [process_files] using process_fold_not_matched lookup i2c ts ⟨[], []⟩
  · exact process_fold_countries_filter lookup i2c ts [] []

theorem alist_get_update {β : Type} (ku k : List Char) (f : β → β)
    (l : List (List Char × β)) :
    alist_get k (alist_update ku f l)
      = if ku = k then (alist_get k l).map f else alist_get k l := by
  induction l with
  | nil => by_cases h : ku = k <;> simp [alist_get, alist_update, h]
  | cons p rest ih =>
    obtain ⟨k0, v⟩ := p
    by_cases h0 : k0 = ku
    · subst h0
      by_cases hk : k0 = k <;> simp [alist_get, alist_update, hk]
    · by_cases hk : k0 = k
      · have hku : ku ≠ k := fun he => h0 (hk.trans he.symm)
        simp [alist_get, alist_update, h0, hk, hku, Ne.symm hku]
      · simp [alist_get, alist_update, h0, hk, ih]

theorem alist_get_append {β : Type} (k : List Char)
    (l1 l2 : List (List Char × β)) :
    alist_get k (l1 ++ l2)
      = (match alist_get k l1 with
         | some v => some v
         | none => alist_get k l2) := by
  induction l1 with
  | nil => simp [alist_get]
  | cons p rest ih =>
    obtain ⟨k0, v⟩ := p
    by_cases hk : k0 = k <;> simp [alist_get, hk, ih]

theorem alist_keys_update {β : Type} (ku : List Char) (f : β → β)
    (l : List (List Char × β)) :
    alist_keys (alist_update ku f l) = alist_keys l := by
  induction l with
  | nil => rfl
  | cons p rest ih =>
    obtain ⟨k0, v⟩ := p
    by_cases h0 : k0 = ku
    · simp [alist_keys, alist_update, h0]
    · simp only [alist_update, if_neg h0]
      simp only [alist_keys, List.map_cons, List.cons.injEq, true_and]
      exact ih

theorem mem_alist_keys_iff {β : Type} (k : List Char) (l : List (List Char × β)) :
    k ∈ alist_keys l ↔ (alist_get k l).isSome = true := by
  induction l with
  | nil => simp [alist_keys, alist_get]
  | cons p rest ih =>
    obtain ⟨k0, v⟩ := p
    simp only [alist_keys, List.map_cons, List.mem_cons, alist_get]
    by_cases h0 : k0 = k
    · subst h0
      exact iff_of_true (Or.inl rfl) (by rw [if_pos rfl]; rfl)
    · rw [if_neg h0]
      simp only [alist_keys] at ih
      constructor
      · rintro (rfl | h)
        · exact absurd rfl h0
        · exact ih.mp h
      · intro h
        exact Or.inr (ih.mpr h)

theorem alist_get_dict_append_self {β : Type} (k : List Char) (mk : β)
    (f : β → β) (l : List (List Char × β)) :
    alist_get k (dict_append k mk f l) = some (f ((alist_get k l).getD mk)) := by
  unfold dict_append
  rw [alist_get_update, if_pos rfl]
  by_cases hp : (alist_get k l).isSome = true
  · rw [if_pos hp]
    obtain ⟨v, hv⟩ := Option.isSome_iff_exists.mp hp
    simp [hv]
  · rw [if_neg hp]
    have hn : alist_get k l = none := Option.not_isSome_iff_eq_none.mp hp
    rw [alist_get_append]
    simp [hn, alist_get]

theorem alist_get_dict_append_other {β : Type} (k q : List Char) (mk : β)
    (f : β → β) (l : List (List Char × β)) (h : k ≠ q) :
    alist_get q (dict_append k mk f l) = alist_get q l := by
  unfold dict_append
  rw [alist_get_update, if_neg h]
  by_cases hp : (alist_get k l).isSome = true
  · rw [if_pos hp]
  · rw [if_neg hp, alist_get_append]
    cases hq : alist_get q l <;> simp [alist_get, h]

theorem alist_keys_dict_append {β : Type} (k : List Char) (mk : β)
    (f : β → β) (l : List (List Char × β)) :
    alist_keys (dict_append k mk f l)
      = alist_keys l ++ (if (alist_get k l).isSome = true then [] else [k]) := by
  unfold dict_append
  by_cases hp : (alist_get k l).isSome = true
  · rw [if_pos hp, if_pos hp, alist_keys_update, List.append_nil]
  · rw [if_neg hp, if_neg hp, alist_keys_update]
    simp [alist_keys]

theorem mem_keys_dict_append {β : Type} (k q : List Char) (mk : β)
    (f : β → β) (l : List (List Char × β)) :
    q ∈ alist_keys (dict_append k mk f l) ↔ q ∈ alist_keys l ∨ q = k := by
  rw [alist_keys_dict_append]
  by_cases hp : (alist_get k l).isSome = true
  · simp only [hp, if_true, List.append_nil]
    constructor
    · exact Or.inl
    · rintro (h | rfl)
      · exact h
      · exact (mem_alist_keys_iff q l).mpr hp
  · simp [hp]

theorem fetch_step_country_keys (lookup i2c : List Char → Option (List Char))
    (st : FetchState) (t k : List Char) :
    k ∈ alist_keys (fetch_step lookup i2c st t).countries
      ↔ k ∈ alist_keys st.countries ∨ country_key_of lookup t = some k := by
  cases hcl : classify_spec lookup t with
  | unmatched => simp [fetch_step, country_key_of, hcl]
  | continentMap c i y => simp [fetch_step, country_key_of, hcl]
  | graph w i sy ey =>
    simp only [fetch_step, hcl, country_key_of]
    rw [mem_keys_dict_append]
    simp [eq_comm]
  | map o r i y =>
    cases o with
    | none => simp [fetch_step, country_key_of, hcl]
    | some s =>
      simp only [fetch_step, hcl, country_key_of]
      rw [mem_keys_dict_append]
      simp [eq_comm]

theorem fetch_step_continent_keys (lookup i2c : List Char → Option (List Char))
    (st : FetchState) (t k : List Char) :
    k ∈ alist_keys (fetch_step lookup i2c st t).continents
      ↔ k ∈ alist_keys st.continents ∨ continent_key_of lookup t = some k := by
  cases hcl : classify_spec lookup t with
  | unmatched => simp [fetch_step, continent_key_of, hcl]
  | graph w i sy ey => simp [fetch_step, continent_key_of, hcl]
  | continentMap c i y =>
    simp only [fetch_step, hcl, continent_key_of]
    rw [mem_keys_dict_append]
    simp [eq_comm]
  | map o r i y =>
    cases o with
    | none => simp [fetch_step, continent_key_of, hcl]
    | some s => simp [fetch_step, continent_key_of, hcl]

theorem fetch_step_graphs_of (lookup i2c : List Char → Option (List Char))
    (st : FetchState) (t k : List Char) :
    graphs_of k (fetch_step lookup i2c st t)
      = graphs_of k st ++ (graph_entry_for lookup k t).toList := by
  cases hcl : classify_spec lookup t with
  | unmatched => simp [fetch_step, graphs_of, graph_entry_for, hcl]
  | continentMap c i y => simp [fetch_step, graphs_of, graph_entry_for, hcl]
  | graph w i sy ey =>
    simp only [fetch_step, hcl, graphs_of, graph_entry_for]
    by_cases hwk : w = k
    · subst hwk
      rw [alist_get_dict_append_self]
      cases hv : alist_get w st.countries with
      | some v => simp [hv]
      | none => simp [hv]
    · rw [alist_get_dict_append_other _ _ _ _ _ hwk]
      simp [hwk]
  | map o r i y =>
    cases o with
    | none => simp [fetch_step, graphs_of, graph_entry_for, hcl]
    | some s =>
      simp only [fetch_step, hcl, graphs_of, graph_entry_for]
      by_cases hsk : s = k
      · subst hsk
        rw [alist_get_dict_append_self]
        cases hv : alist_get s st.countries with
        | some v => simp [hv]
        | none => simp [hv]
      · rw [alist_get_dict_append_other _ _ _ _ _ hsk]
        simp

theorem fetch_step_cmaps_of (lookup i2c : List Char → Option (List Char))
    (st : FetchState) (t k : List Char) :
    cmaps_of k (fetch_step lookup i2c st t)
      = cmaps_of k st ++ (map_entry_for lookup k t).toList := by
  cases hcl : classify_spec lookup t with
  | unmatched => simp [fetch_step, cmaps_of, map_entry_for, hcl]
  | continentMap c i y => simp [fetch_step, cmaps_of, map_entry_for, hcl]
  | graph w i sy ey =>
    simp only [fetch_step, hcl, cmaps_of, map_entry_for]
    by_cases hwk : w = k
    · subst hwk
      rw [alist_get_dict_append_self]
      cases hv : alist_get w st.countries with
      | some v => simp [hv]
      | none => simp [hv]
    · rw [alist_get_dict_append_other _ _ _ _ _ hwk]
      simp
  | map o r i y =>
    cases o with
    | none => simp [fetch_step, cmaps_of, map_entry_for, hcl]
    | some s =>
      simp only [fetch_step, hcl, cmaps_of, map_entry_for]
      by_cases hsk : s = k
      · subst hsk
        rw [alist_get_dict_append_self]
        cases hv : alist_get s st.countries with
        | some v => simp [hv]
        | none => simp [hv]
      · rw [alist_get_dict_append_other _ _ _ _ _ hsk]
        simp [hsk]

theorem fetch_step_cont_maps_of (lookup i2c : List Char → Option (List Char))
    (st : FetchState) (t c : List Char) :
    cont_maps_of c (fetch_step lookup i2c st t)
      = cont_maps_of c st ++ (cont_entry_for lookup c t).toList := by
  cases hcl : classify_spec lookup t with
  | unmatched => simp [fetch_step, cont_maps_of, cont_entry_for, hcl]
  | graph w i sy ey => simp [fetch_step, cont_maps_of, cont_entry_for, hcl]
  | continentMap cc i y =>
    simp only [fetch_step, hcl, cont_maps_of, cont_entry_for]
    by_cases hck : cc = c
    · subst hck
      rw [alist_get_dict_append_self]
      cases hv : alist_get cc st.continents with
      | some v => simp [hv]
      | none => simp [hv]
    · rw [alist_get_dict_append_other _ _ _ _ _ hck]
      simp [hck]
  | map o r i y =>
    cases o with
    | none => simp [fetch_step, cont_maps_of, cont_entry_for, hcl]
    | some s => simp [fetch_step, cont_maps_of, cont_entry_for, hcl]

theorem fetch_fold_country_keys (lookup i2c : List Char → Option (List Char)) :
    ∀ (ts : List (List Char)) (st : FetchState) (k : List Char),
      k ∈ alist_keys ((ts.foldl (fetch_step lookup i2c) st).countries)
        ↔ k ∈ alist_keys st.countries
          ∨ ∃ t ∈ ts, country_key_of lookup t = some k := by
  intro ts
  induction ts with
  | nil => intro st k; simp
  | cons t ts ih =>
    intro st k
    rw [List.foldl_cons, ih, fetch_step_country_keys]
    constructor
    · rintro ((h | h) | h)
      · exact Or.inl h
      · exact Or.inr ⟨t, List.mem_cons_self _ _, h⟩
      · obtain ⟨t', ht', hk⟩ := h
        exact Or.inr ⟨t', List.mem_cons_of_mem _ ht', hk⟩
    · rintro (h | ⟨t', ht', hk⟩)
      · exact Or.inl (Or.inl h)
      · rcases List.mem_cons.mp ht' with rfl | ht''
        · exact Or.inl (Or.inr hk)
        · exact Or.inr ⟨t', ht'', hk⟩

theorem fetch_fold_continent_keys (lookup i2c : List Char → Option (List Char)) :
    ∀ (ts : List (List Char)) (st : FetchState) (k : List Char),
      k ∈ alist_keys ((ts.foldl (fetch_step lookup i2c) st).continents)
        ↔ k ∈ alist_keys st.continents
          ∨ ∃ t ∈ ts, continent_key_of lookup t = some k := by
  intro ts
  induction ts with
  | nil => intro st k; simp
  | cons t ts ih =>
    intro st k
    rw [List.foldl_cons, ih, fetch_step_continent_keys]
    constructor
    · rintro ((h | h) | h)
      · exact Or.inl h
      · exact Or.inr ⟨t, List.mem_cons_self _ _, h⟩
      · obtain ⟨t', ht', hk⟩ := h
        exact Or.inr ⟨t', List.mem_cons_of_mem _ ht', hk⟩
    · rintro (h | ⟨t', ht', hk⟩)
      · exact Or.inl (Or.inl h)
      · rcases List.mem_cons.mp ht' with rfl | ht''
        · exact Or.inl (Or.inr hk)
        · exact Or.inr ⟨t', ht'', hk⟩

theorem fetch_fold_graphs_of (lookup i2c : List Char → Option (List Char)) :
    ∀ (ts : List (List Char)) (st : FetchState) (k : List Char),
      graphs_of k (ts.foldl (fetch_step lookup i2c) st)
        = graphs_of k st ++ ts.filterMap (graph_entry_for lookup k) := by
  intro ts
  induction ts with
  | nil => intro st k; simp
  | cons t ts ih =>
    intro st k
    rw [List.foldl_cons, ih, fetch_step_graphs_of]
    cases he : graph_entry_for lookup k t <;>
      simp [he, List.filterMap_cons, List.append_assoc]

theorem fetch_fold_cmaps_of (lookup i2c : List Char → Option (List Char)) :
    ∀ (ts : List (List Char)) (st : FetchState) (k : List Char),
      cmaps_of k (ts.foldl (fetch_step lookup i2c) st)
        = cmaps_of k st ++ ts.filterMap (map_entry_for lookup k) := by
  intro ts
  induction ts with
  | nil => intro st k; simp
  | cons t ts ih =>
    intro st k
    rw [List.foldl_cons, ih, fetch_step_cmaps_of]
    cases he : map_entry_for lookup k t <;>
      simp [he, List.filterMap_cons, List.append_assoc]

theorem fetch_fold_cont_maps_of (lookup i2c : List Char → Option (List Char)) :
    ∀ (ts : List (List Char)) (st : FetchState) (c : List Char),
      cont_maps_of c (ts.foldl (fetch_step lookup i2c) st)
        = cont_maps_of c st ++ ts.filterMap (cont_entry_for lookup c) := by
  intro ts
  induction ts with
  | nil => intro st c; simp
  | cons t ts ih =>
    intro st c
    rw [List.foldl_cons, ih, fetch_step_cont_maps_of]
    cases he : cont_entry_for lookup c t <;>
      simp [he, List.filterMap_cons, List.append_assoc]

/-- C5: aggregation is permutation-stable on entity keys and order-faithful
inside each entity.  For every permutation of the title list the sets of
country keys and continent keys agree, and within one entity the
graphs/maps lists are exactly the input-order filterMap of the titles
contributing to that entity.  (Settled against fetch_files, the
spec-modelled continent-aware aggregator of spec section 4.3; the revision
holding it is not under src/.) -/
theorem claim_C5_perm_and_order :
    ∀ (lookup i2c : List Char → Option (List Char)) (ts ts' : List (List Char)),
      ts.Perm ts' →
      ((∀ k, k ∈ alist_keys (fetch_files lookup i2c ts).countries
          ↔ k ∈ alist_keys (fetch_files lookup i2c ts').countries)
        ∧ (∀ c, c ∈ alist_keys (fetch_files lookup i2c ts).continents
            ↔ c ∈ alist_keys (fetch_files lookup i2c ts').continents)
        ∧ (∀ k, graphs_of k (fetch_files lookup i2c ts)
              = ts.filterMap (graph_entry_for lookup k)
            ∧ cmaps_of k (fetch_files lookup i2c ts)
              = ts.filterMap (map_entry_for lookup k)
            ∧ cont_maps_of k (fetch_files lookup i2c ts)
              = ts.filterMap (cont_entry_for lookup k))) := by
  intro lookup i2c ts ts' hperm
  refine ⟨?_, ?_, ?_⟩
  · intro k
    unfold fetch_files
    rw [fetch_fold_country_keys, fetch_fold_country_keys]
    simp only [alist_keys, List.map_nil, List.not_mem_nil, false_or]
    exact ⟨fun ⟨t, ht, h⟩ => ⟨t, hperm.mem_iff.mp ht, h⟩,
      fun ⟨t, ht, h⟩ => ⟨t, hperm.mem_iff.mpr ht, h⟩⟩
  · intro c
    unfold fetch_files
    rw [fetch_fold_continent_keys, fetch_fold_continent_keys]
    simp only [alist_keys, List.map_nil, List.not_mem_nil, false_or]
    exact ⟨fun ⟨t, ht, h⟩ => ⟨t, hperm.mem_iff.mp ht, h⟩,
      fun ⟨t, ht, h⟩ => ⟨t, hperm.mem_iff.mpr ht, h⟩⟩
  · intro k
    unfold fetch_files
    refine ⟨?_, ?_, ?_⟩
    · rw [fetch_fold_graphs_of]
      simp [graphs_of, alist_get]
    · rw [fetch_fold_cmaps_of]
      simp [cmaps_of, alist_get]
    · rw [fetch_fold_cont_maps_of]
      simp [cont_maps_of, alist_get]

/-- Witness for C5: a concrete two-title list and its swap have the same
country-key membership. -/
theorem claim_C5_witness :
    (("CAN".data ∈ alist_keys (fetch_files no_lookup no_lookup
        ["B, Africa, 2015.svg".data, "A, 1 to 2, CAN.svg".data]).countries)
      ↔ ("CAN".data ∈ alist_keys (fetch_files no_lookup no_lookup
        ["A, 1 to 2, CAN.svg".data, "B, Africa, 2015.svg".data]).countries)) :=
  (claim_C5_perm_and_order no_lookup no_lookup
    ["B, Africa, 2015.svg".data, "A, 1 to 2, CAN.svg".data]
    ["A, 1 to 2, CAN.svg".data, "B, Africa, 2015.svg".data]
    (List.Perm.swap _ _ _)).1 ("CAN".data)
